import Mathlib

/-!
Verification development for the block-lexer dispatch engine of
`src/robot/parsing/lexer/blocklexers.py`.

The file shallowly embeds the composite-lexer hierarchy of that module:
tokens and statements, the per-class `handles` / `accepts_more` predicates,
the candidate-class lists (`lexer_classes`), the dispatch algorithm
(`BlockLexer.input` / `BlockLexer.lexer_for`), the nested-block depth
tracking (`NestedBlockLexer`), the test/keyword name extraction
(`TestOrKeywordLexer`), the inline-conditional splitter
(`InlineIfLexer._split`), and the emission order of the `lex` phase
including priority lexing (`BlockLexer._lex_with_priority`).

Collaborators that live outside the embedded module (the leaf statement
lexers of `statementlexers.py`, the context objects of `context.py`, and
`robot.utils.normalize_whitespace`) are modelled abstractly: leaf
behaviour is a parameter (`Env`) and section classification is a record
of opaque predicates (`Ctx`), exactly as the specification treats them
(interface only).

Python raises `IndexError` on `statement[0]` / `statement.pop(0)` for an
empty statement; the upstream splitter never produces empty statements.
Where the source indexes `statement[0]` we totalise with `firstValue`,
which returns `""` on the (unreachable) empty statement; `pop(0)` on an
empty statement is modelled as an explicit error.
-/

namespace BlockLexers

/-- Semantic token types assigned by the embedded module itself
(`Token.TESTCASE_NAME` and `Token.KEYWORD_NAME`); all other type tags are
assigned by the out-of-scope leaf classifiers during `lex`. -/
inductive TokType where
  | testcaseName
  | keywordName
deriving DecidableEq, Repr

/-- A token: immutable source text, a mutable semantic type tag (initially
unset, `none` also encodes the cleared "ignore" tag), and the two synthetic
end-of-statement boundary request flags (`_add_eos_before` /
`_add_eos_after`). -/
structure Token where
  value : String
  type : Option TokType := none
  addEosBefore : Bool := false
  addEosAfter : Bool := false
deriving DecidableEq, Repr

/-- A statement is an ordered sequence of tokens (one logical line). -/
abbrev Statement := List Token

/-- Convenience constructor for a raw (untyped) token. -/
def tok (v : String) : Token := { value := v }

/-- Text of the first token of a statement (`statement[0].value`),
totalised to `""` for the empty statement (Python would raise
`IndexError`; upstream never yields empty statements). -/
def firstValue : Statement → String
  | [] => ""
  | t :: _ => t.value

/-- Character-list core of `str.startswith`. -/
def startsWithAux : List Char → List Char → Bool
  | [], _ => true
  | _ :: _, [] => false
  | c :: cs, d :: ds => c == d && startsWithAux cs ds

/-- Python `s.startswith(pre)`, re-implemented structurally over the
character lists so that it evaluates inside the kernel. -/
def strStartsWith (s pre : String) : Bool :=
  startsWithAux pre.toList s.toList

/-- Modelled from the spec: the context collaborator (`context.py`, not
under `src/`) is queried only through its section-kind predicates; they
are opaque booleans per statement. -/
structure Ctx where
  setting_section : Statement → Bool
  variable_section : Statement → Bool
  test_case_section : Statement → Bool
  task_section : Statement → Bool
  keyword_section : Statement → Bool
  comment_section : Statement → Bool

/-- The leaf statement-lexer classes imported from `statementlexers.py`
(out of scope; only their capability contract is known). -/
inductive LeafKind where
  | settingSectionHeader
  | setting
  | variableSectionHeader
  | variableLx
  | testCaseSectionHeader
  | taskSectionHeader
  | keywordSectionHeader
  | commentSectionHeader
  | comment
  | implicitComment
  | errorSectionHeader
  | testOrKeywordSetting
  | keywordCall
  | ifHeader
  | elseIfHeader
  | elseHeader
  | inlineIfHeader
  | endLx
  | tryHeader
  | exceptHeader
  | finallyHeader
  | forHeader
  | whileHeader
  | continueLx
  | breakLx
  | returnLx
deriving DecidableEq, Repr

/-- The composite lexer classes defined in `blocklexers.py` itself. -/
inductive CompKind where
  | fileL
  | settingSection
  | variableSection
  | testCaseSection
  | taskSection
  | keywordSection
  | commentSection
  | implicitCommentSection
  | errorSection
  | testCase
  | keywordL
  | forL
  | whileL
  | tryL
  | ifL
  | inlineIf
deriving DecidableEq, Repr

/-- A candidate lexer class (entry of a `lexer_classes()` tuple): either a
leaf statement-lexer class or a composite class. -/
inductive LexerClass where
  | leafC (k : LeafKind)
  | compC (k : CompKind)
deriving DecidableEq, Repr

/-- Modelled from the spec: behaviour of the out-of-scope collaborators.
`leafHandles`/`leafAcceptsMore` are the class-level `handles` and
instance `accepts_more` of the leaf statement lexers (`statementlexers.py`,
not under `src/`; the contract says `accepts_more` is typically false for
single-line constructs, but nothing here depends on that). `baseHandles`
is the inherited `Lexer.handles` used by composite classes that do not
override `handles` (`TestCaseLexer`, `KeywordLexer`). `testCaseContext` /
`keywordContext` are the scope-narrowing factories
`ctx.test_case_context()` / `ctx.keyword_context()`. -/
structure Env where
  leafHandles : LeafKind → Statement → Ctx → Bool
  leafAcceptsMore : LeafKind → Statement → Bool
  baseHandles : Statement → Ctx → Bool
  testCaseContext : Ctx → Ctx
  keywordContext : Ctx → Ctx

/-- Python class name of a composite, used in the `lexer_for` diagnostic
(`type(self).__name__`). -/
def compName : CompKind → String
  | .fileL => "FileLexer"
  | .settingSection => "SettingSectionLexer"
  | .variableSection => "VariableSectionLexer"
  | .testCaseSection => "TestCaseSectionLexer"
  | .taskSection => "TaskSectionLexer"
  | .keywordSection => "KeywordSectionLexer"
  | .commentSection => "CommentSectionLexer"
  | .implicitCommentSection => "ImplicitCommentSectionLexer"
  | .errorSection => "ErrorSectionLexer"
  | .testCase => "TestCaseLexer"
  | .keywordL => "KeywordLexer"
  | .forL => "ForLexer"
  | .whileL => "WhileLexer"
  | .tryL => "TryLexer"
  | .ifL => "IfLexer"
  | .inlineIf => "InlineIfLexer"

/-- Class-level `handles(statement, ctx)` of each composite class, straight
from the source: the section lexers ask the context, the implicit comment
section always matches, the error section matches a non-empty statement
whose first token starts with `*`, the nested-block classes delegate to
their header leaf class, and `InlineIfLexer.handles` requires strictly
more than two tokens before delegating to `InlineIfHeaderLexer.handles`.
`TestCaseLexer`/`KeywordLexer` inherit the base `Lexer.handles`
(out of scope, abstract). -/
def compHandles (env : Env) (k : CompKind) (s : Statement) (ctx : Ctx) : Bool :=
  match k with
  | .fileL => env.baseHandles s ctx
  | .settingSection => ctx.setting_section s
  | .variableSection => ctx.variable_section s
  | .testCaseSection => ctx.test_case_section s
  | .taskSection => ctx.task_section s
  | .keywordSection => ctx.keyword_section s
  | .commentSection => ctx.comment_section s
  | .implicitCommentSection => true
  | .errorSection => !s.isEmpty && strStartsWith (firstValue s) "*"
  | .testCase => env.baseHandles s ctx
  | .keywordL => env.baseHandles s ctx
  | .forL => env.leafHandles .forHeader s ctx
  | .whileL => env.leafHandles .whileHeader s ctx
  | .tryL => env.leafHandles .tryHeader s ctx
  | .ifL => env.leafHandles .ifHeader s ctx
  | .inlineIf => decide (2 < s.length) && env.leafHandles .inlineIfHeader s ctx

/-- `handles` of an arbitrary candidate class. -/
def classHandles (env : Env) (c : LexerClass) (s : Statement) (ctx : Ctx) : Bool :=
  match c with
  | .leafC k => env.leafHandles k s ctx
  | .compC k => compHandles env k s ctx

/-- Instance-level `accepts_more(statement)` of a composite, straight from
the source: `BlockLexer` always accepts, a `SectionLexer` accepts until a
statement whose first token starts with `*`, a `TestOrKeywordLexer`
accepts while the first token's text is empty, a `NestedBlockLexer`
accepts while its block level is positive, `InlineIfLexer` never. -/
def compAcceptsMore (k : CompKind) (blockLevel : Int) (s : Statement) : Bool :=
  match k with
  | .fileL => true
  | .settingSection | .variableSection | .testCaseSection | .taskSection
  | .keywordSection | .commentSection | .implicitCommentSection
  | .errorSection => !strStartsWith (firstValue s) "*"
  | .testCase | .keywordL => firstValue s == ""
  | .forL | .whileL | .tryL | .ifL => decide (0 < blockLevel)
  | .inlineIf => false

/-- The ordered `lexer_classes()` tuple of each composite, transcribed from
the source. Order is significant: `lexer_for` takes the first match. -/
def lexer_classes : CompKind → List LexerClass
  | .fileL =>
      [.compC .settingSection, .compC .variableSection,
       .compC .testCaseSection, .compC .taskSection,
       .compC .keywordSection, .compC .commentSection,
       .compC .errorSection, .compC .implicitCommentSection]
  | .settingSection => [.leafC .settingSectionHeader, .leafC .setting]
  | .variableSection => [.leafC .variableSectionHeader, .leafC .variableLx]
  | .testCaseSection => [.leafC .testCaseSectionHeader, .compC .testCase]
  | .taskSection => [.leafC .taskSectionHeader, .compC .testCase]
  | .keywordSection => [.leafC .keywordSectionHeader, .compC .keywordL]
  | .commentSection => [.leafC .commentSectionHeader, .leafC .comment]
  | .implicitCommentSection => [.leafC .implicitComment]
  | .errorSection => [.leafC .errorSectionHeader, .leafC .comment]
  | .testCase | .keywordL =>
      [.leafC .testOrKeywordSetting, .leafC .breakLx, .leafC .continueLx,
       .compC .forL, .compC .inlineIf, .compC .ifL, .leafC .returnLx,
       .compC .tryL, .compC .whileL, .leafC .keywordCall]
  | .forL =>
      [.leafC .forHeader, .compC .inlineIf, .compC .ifL, .compC .tryL,
       .compC .whileL, .leafC .endLx, .leafC .returnLx, .leafC .continueLx,
       .leafC .breakLx, .leafC .keywordCall]
  | .whileL =>
      [.leafC .whileHeader, .compC .forL, .compC .inlineIf, .compC .ifL,
       .compC .tryL, .leafC .endLx, .leafC .returnLx, .leafC .continueLx,
       .leafC .breakLx, .leafC .keywordCall]
  | .tryL =>
      [.leafC .tryHeader, .leafC .exceptHeader, .leafC .elseHeader,
       .leafC .finallyHeader, .compC .forL, .compC .inlineIf, .compC .ifL,
       .compC .whileL, .leafC .endLx, .leafC .returnLx, .leafC .breakLx,
       .leafC .continueLx, .leafC .keywordCall]
  | .ifL =>
      [.compC .inlineIf, .leafC .ifHeader, .leafC .elseIfHeader,
       .leafC .elseHeader, .compC .forL, .compC .tryL, .compC .whileL,
       .leafC .endLx, .leafC .returnLx, .leafC .continueLx,
       .leafC .breakLx, .leafC .keywordCall]
  | .inlineIf =>
      [.leafC .inlineIfHeader, .leafC .elseIfHeader, .leafC .elseHeader,
       .leafC .returnLx, .leafC .continueLx, .leafC .breakLx,
       .leafC .keywordCall]

/-- The `name_type` class attribute of the two `TestOrKeywordLexer`
subclasses (`Token.TESTCASE_NAME` / `Token.KEYWORD_NAME`). Other kinds
never use it. -/
def nameTypeOf : CompKind → TokType
  | .keywordL => .keywordName
  | _ => .testcaseName

/-- Maximal non-whitespace runs (words) of a character list; `cur` holds
the characters of the word in progress, in reverse. -/
def wordsAux : List Char → List Char → List (List Char)
  | cur, [] => if cur.isEmpty then [] else [cur.reverse]
  | cur, c :: cs =>
      if c.isWhitespace then
        if cur.isEmpty then wordsAux [] cs else cur.reverse :: wordsAux [] cs
      else wordsAux (c :: cur) cs

/-- Join words with single spaces. -/
def joinWords : List (List Char) → List Char
  | [] => []
  | [w] => w
  | w :: ws => w ++ ' ' :: joinWords ws

/-- Modelled from the spec: `robot.utils.normalize_whitespace` (not under
`src/`) collapses runs of whitespace into single spaces and strips the
ends, used to compare a token's text against the two-word form
`ELSE IF`. -/
def normalizeWhitespace (s : String) : String :=
  String.mk (joinWords (wordsAux [] s.toList))

/-- The scanner of `InlineIfLexer._split`, as a recursion over the
remaining tokens: `expectCondition` is the `expect_condition` flag,
`current` the sub-statement being accumulated. A token is the statement's
last token (`token is statement[-1]`) exactly when the remainder is empty
(token objects are never aliased within one statement). Emitted (possibly
empty) sub-statements appear in yield order; the final `yield current`
is the base case. -/
def splitGo : Bool → List Token → List Token → List (List Token)
  | _, current, [] => [current]
  | true, current, t :: rest =>
      let t' := if rest.isEmpty then t else { t with addEosAfter := true }
      (current ++ [t']) :: splitGo false [] rest
  | false, current, t :: rest =>
      if t.value == "IF" then
        splitGo true (current ++ [t]) rest
      else if normalizeWhitespace t.value == "ELSE IF" then
        current :: splitGo true [{ t with addEosBefore := true }] rest
      else if t.value == "ELSE" then
        let t1 : Token := { t with addEosBefore := true }
        let t2 := if rest.isEmpty then t1 else { t1 with addEosAfter := true }
        current :: [t2] :: splitGo false [] rest
      else
        splitGo false (current ++ [t]) rest

/-- `InlineIfLexer._split(statement)`: scan from an empty accumulator with
the condition flag down. -/
def split (s : Statement) : List Statement := splitGo false [] s

/-- State of one lexer instance in the tree. A leaf records the statements
routed to it (the out-of-scope `StatementLexer.input` stores its
statement; `lex` later classifies it). A composite records its class, its
bound context, its append-only child list (`self.lexers`), the
`NestedBlockLexer._block_level` counter, the `TestOrKeywordLexer`
`_name_seen` flag, the name tokens it has reinterpreted and the
indentation tokens whose type it has cleared. Fields irrelevant to a
class stay at their initial values, mirroring Python attributes that the
class never touches. -/
inductive LexerNode where
  | leaf (kind : LeafKind) (stmts : List Statement)
  | comp (kind : CompKind) (ctx : Ctx) (children : List LexerNode)
      (blockLevel : Int) (nameSeen : Bool)
      (nameTokens : List Token) (ignoredTokens : List Token)

/-- The class of a node (what Python `isinstance` checks see). -/
def classOf : LexerNode → LexerClass
  | .leaf k _ => .leafC k
  | .comp k _ _ _ _ _ _ => .compC k

/-- `_block_level` of a node (0 for leaves and non-nested composites). -/
def blockLevelOf : LexerNode → Int
  | .leaf _ _ => 0
  | .comp _ _ _ lvl _ _ _ => lvl

/-- Child list of a node (empty for leaves). -/
def childrenOf : LexerNode → List LexerNode
  | .leaf _ _ => []
  | .comp _ _ children _ _ _ _ => children

/-- Context a composite class binds at construction: `TestCaseLexer` and
`KeywordLexer` derive a narrower context (`ctx.test_case_context()` /
`ctx.keyword_context()`), every other class keeps the creator's context. -/
def childCtx (env : Env) (k : CompKind) (ctx : Ctx) : Ctx :=
  match k with
  | .testCase => env.testCaseContext ctx
  | .keywordL => env.keywordContext ctx
  | _ => ctx

/-- Instantiating a candidate class (`cls(self.ctx)`): a fresh leaf or a
fresh composite with no children, zero block level and no name seen. -/
def newLexer (env : Env) (c : LexerClass) (ctx : Ctx) : LexerNode :=
  match c with
  | .leafC k => .leaf k []
  | .compC k => .comp k (childCtx env k ctx) [] 0 false [] []

/-- `accepts_more(statement)` of a node: leaves use the out-of-scope leaf
contract, composites the class table `compAcceptsMore`. -/
def nodeAcceptsMore (env : Env) : LexerNode → Statement → Bool
  | .leaf k _, s => env.leafAcceptsMore k s
  | .comp k _ _ lvl _ _ _, s => compAcceptsMore k lvl s

/-- Failure modes of the embedded dispatcher: `noLexer` is the `TypeError`
raised by `BlockLexer.lexer_for` (carrying the composite's class name and
the offending statement), `emptyStatement` the `IndexError` of
`statement.pop(0)` on an empty statement, `outOfFuel` exhaustion of the
artificial recursion budget (never raised with enough fuel). -/
inductive LexError where
  | noLexer (compositeName : String) (s : Statement)
  | emptyStatement
  | outOfFuel
deriving DecidableEq, Repr

/-- Rendering of a statement inside the `lexer_for` diagnostic. The exact
Python `repr` of a token list lives outside `src/`; the message is
modelled as carrying the token texts. -/
def reprStatement (s : Statement) : String :=
  "[" ++ ", ".intercalate (s.map (fun t => t.value)) ++ "]"

/-- Text of a raised error, following the f-string of `lexer_for`. -/
def errorMessage : LexError → String
  | .noLexer name s =>
      name ++ " does not have lexer for statement " ++ reprStatement s ++ "."
  | .emptyStatement => "IndexError: pop from empty list"
  | .outOfFuel => "recursion budget exhausted"

/-- What a Python `input` call returns: `BlockLexer.input` returns the
direct child it delegated to, `InlineIfLexer.input` returns `self`, and
the `TestOrKeywordLexer` / `NestedBlockLexer` overrides return `None`. -/
inductive InputRet where
  | childRet (c : LexerClass)
  | selfRet
  | noneRet
deriving DecidableEq, Repr

/-- `BlockLexer.lexer_for(statement)`: scan `lexer_classes()` in order and
take the first class whose `handles` is true; raise `TypeError` naming
the composite and the statement when none matches. -/
def lexer_for (env : Env) (k : CompKind) (ctx : Ctx) (s : Statement) :
    Except LexError LexerClass :=
  match (lexer_classes k).find? (fun c => classHandles env c s ctx) with
  | some c => .ok c
  | none => .error (.noLexer (compName k) s)

/-- The no-open-child path of `BlockLexer.input`: classify via
`lexer_for`, instantiate, append as last child, delegate the statement to
the fresh child (`recur` is the recursive `input` on nodes). Returns the
new child list and the class of the delegated-to child. -/
def blockInputFresh (env : Env)
    (recur : LexerNode → Statement → Except LexError (LexerNode × InputRet))
    (k : CompKind) (ctx : Ctx) (children : List LexerNode) (s : Statement) :
    Except LexError (List LexerNode × LexerClass) :=
  match lexer_for env k ctx s with
  | .ok c =>
      match recur (newLexer env c ctx) s with
      | .ok (fresh, _) => .ok (children ++ [fresh], c)
      | .error e => .error e
  | .error e => .error e

/-- Body of `BlockLexer.input(statement)` (the generic dispatch): if the
most recently appended child exists and still `accepts_more`, delegate to
it; otherwise create the first matching candidate and delegate to that.
The result pairs the updated child list with the class of the direct
child that the statement was delegated to (the `lexer` local that Python
returns). -/
def blockInputF (env : Env)
    (recur : LexerNode → Statement → Except LexError (LexerNode × InputRet))
    (k : CompKind) (ctx : Ctx) (children : List LexerNode) (s : Statement) :
    Except LexError (List LexerNode × LexerClass) :=
  match children.getLast? with
  | some last =>
      if nodeAcceptsMore env last s then
        match recur last s with
        | .ok (last', _) => .ok (children.dropLast ++ [last'], classOf last)
        | .error e => .error e
      else
        blockInputFresh env recur k ctx children s
  | none => blockInputFresh env recur k ctx children s

/-- The loop of `InlineIfLexer.input`: feed every non-empty part produced
by `_split` through the ordinary dispatch (`step` is `super().input`
specialised to this composite), threading the child list. -/
def inlineGo
    (step : List LexerNode → Statement → Except LexError (List LexerNode × LexerClass)) :
    List LexerNode → List Statement → Except LexError (List LexerNode)
  | children, [] => .ok children
  | children, p :: ps =>
      if p.isEmpty then inlineGo step children ps
      else
        match step children p with
        | .ok (children', _) => inlineGo step children' ps
        | .error e => .error e

/-- Whether a direct child is one of the block-opening header leaf classes
checked by `NestedBlockLexer.input`'s first `isinstance`
(`ForHeaderLexer, IfHeaderLexer, TryHeaderLexer, WhileHeaderLexer`). -/
def isOpenerClass : LexerClass → Bool
  | .leafC .forHeader => true
  | .leafC .ifHeader => true
  | .leafC .tryHeader => true
  | .leafC .whileHeader => true
  | _ => false

/-- Whether a direct child is an `EndLexer` (second `isinstance`). -/
def isEndClass : LexerClass → Bool
  | .leafC .endLx => true
  | _ => false

/-- `input(statement)` on a node, dispatching on the node's class exactly
as Python method resolution does. `fuel` only bounds the recursion depth
(delegation through freshly created composites); with enough fuel the
function is the Python semantics.

- leaf: the out-of-scope `StatementLexer.input` records the statement.
- `TestCaseLexer` / `KeywordLexer` (`TestOrKeywordLexer.input`): on the
  first statement pop the first token, tag it with `name_type`, request a
  boundary after it when more tokens follow, then dispatch the remainder
  (if any); on later statements clear the type of leading empty-text
  tokens and dispatch what is left (if any). Returns `None`.
- `ForLexer` / `WhileLexer` / `TryLexer` / `IfLexer`
  (`NestedBlockLexer.input`): generic dispatch, then bump `_block_level`
  up when the delegated-to child is a block-opening header lexer and down
  when it is an `EndLexer`. Returns `None`.
- `InlineIfLexer.input`: split the statement and dispatch every non-empty
  part; returns `self`.
- every other composite: the plain `BlockLexer.input`, returning the
  delegated-to child. -/
def nodeInput (env : Env) : Nat → LexerNode → Statement →
    Except LexError (LexerNode × InputRet)
  | 0, _, _ => .error .outOfFuel
  | _ + 1, .leaf k stmts, s => .ok (.leaf k (stmts ++ [s]), .noneRet)
  | fuel + 1, .comp k ctx children lvl nameSeen names ign, s =>
    match k with
    | .testCase | .keywordL =>
      if nameSeen then
        let kept := s.dropWhile (fun t => t.value == "")
        let ign' := ign ++ (s.takeWhile (fun t => t.value == "")).map
          (fun t => { t with type := none })
        if kept.isEmpty then
          .ok (.comp k ctx children lvl nameSeen names ign', .noneRet)
        else
          match blockInputF env (fun n s' => nodeInput env fuel n s') k ctx children kept with
          | .ok (children', _) =>
              .ok (.comp k ctx children' lvl nameSeen names ign', .noneRet)
          | .error e => .error e
      else
        match s with
        | [] => .error .emptyStatement
        | t :: rest =>
          let t' : Token :=
            { t with
                type := some (nameTypeOf k)
                addEosAfter := if rest.isEmpty then t.addEosAfter else true }
          if rest.isEmpty then
            .ok (.comp k ctx children lvl true (names ++ [t']) ign, .noneRet)
          else
            match blockInputF env (fun n s' => nodeInput env fuel n s') k ctx children rest with
            | .ok (children', _) =>
                .ok (.comp k ctx children' lvl true (names ++ [t']) ign, .noneRet)
            | .error e => .error e
    | .forL | .whileL | .tryL | .ifL =>
      match blockInputF env (fun n s' => nodeInput env fuel n s') k ctx children s with
      | .ok (children', cls) =>
          let lvl' := lvl + (if isOpenerClass cls then 1 else 0)
                          - (if isEndClass cls then 1 else 0)
          .ok (.comp k ctx children' lvl' nameSeen names ign, .noneRet)
      | .error e => .error e
    | .inlineIf =>
      match inlineGo
          (fun cs p => blockInputF env (fun n s' => nodeInput env fuel n s') .inlineIf ctx cs p)
          children (split s) with
      | .ok children' => .ok (.comp k ctx children' lvl nameSeen names ign, .selfRet)
      | .error e => .error e
    | _ =>
      match blockInputF env (fun n s' => nodeInput env fuel n s') k ctx children s with
      | .ok (children', cls) =>
          .ok (.comp k ctx children' lvl nameSeen names ign, .childRet cls)
      | .error e => .error e

/-- The generic `BlockLexer.input` dispatch at a given recursion budget,
acting on a composite's child list. -/
def blockInput (env : Env) (fuel : Nat) (k : CompKind) (ctx : Ctx)
    (children : List LexerNode) (s : Statement) :
    Except LexError (List LexerNode × LexerClass) :=
  blockInputF env (fun n s' => nodeInput env fuel n s') k ctx children s

/-- Python `isinstance(lexer, SettingSectionLexer)`, the priority predicate
of `FileLexer.lex`. `KeywordSectionLexer` is declared as a subclass of
`SettingSectionLexer` in the source, so its instances satisfy the check
too. -/
def isSettingSectionInst : LexerNode → Bool
  | .comp .settingSection _ _ _ _ _ _ => true
  | .comp .keywordSection _ _ _ _ _ _ => true
  | _ => false

/-- Python `isinstance(lexer, TestOrKeywordSettingLexer)`, the priority
predicate of `TestCaseLexer.lex` (a leaf class, no subclasses in the
embedded module). -/
def isTokSettingInst : LexerNode → Bool
  | .leaf .testOrKeywordSetting _ => true
  | _ => false

mutual

/-- Order of leaf `lex()` invocations produced by the `lex` phase: a leaf
emits one event carrying its kind and owned statements; a plain composite
(`BlockLexer.lex`) visits children in append order; `FileLexer.lex` and
`TestCaseLexer.lex` use `_lex_with_priority`, visiting children matching
the priority class first (in append order), then the rest (in append
order). Every other composite, `KeywordLexer` included, inherits the
plain `BlockLexer.lex`. -/
def lexTrace : LexerNode → List (LeafKind × List Statement)
  | .leaf k stmts => [(k, stmts)]
  | .comp k _ children _ _ _ _ =>
    match k with
    | .fileL =>
        lexTraceWhere isSettingSectionInst children
          ++ lexTraceWhere (fun c => !isSettingSectionInst c) children
    | .testCase =>
        lexTraceWhere isTokSettingInst children
          ++ lexTraceWhere (fun c => !isTokSettingInst c) children
    | _ => lexTraceWhere (fun _ => true) children

/-- One pass of `_lex_with_priority` (or of the plain `lex` loop when the
predicate is constantly true): visit, in order, the children satisfying
`p`. -/
def lexTraceWhere (p : LexerNode → Bool) : List LexerNode → List (LeafKind × List Statement)
  | [] => []
  | c :: cs => (if p c then lexTrace c else []) ++ lexTraceWhere p cs

end

/-- Failure of a guarded statement feed: either the underlying `input`
raised, or a statement arrived at a lexer whose `accepts_more` had
already become false (which the parent dispatch of `BlockLexer.input`
never does). -/
inductive RunError where
  | inputErr (e : LexError)
  | closed (s : Statement)

/-- Feed statements one at a time into an existing node, checking before
each one that the node still `accepts_more` — exactly the condition under
which a parent composite keeps delegating to its last child. -/
def guardedSteps (env : Env) (fuel : Nat) : LexerNode → List Statement →
    Except RunError LexerNode
  | node, [] => .ok node
  | node, s :: ss =>
      if nodeAcceptsMore env node s then
        match nodeInput env fuel node s with
        | .ok (node', _) => guardedSteps env fuel node' ss
        | .error e => .error (.inputErr e)
      else .error (.closed s)

/-- Life of a lexer created by composite dispatch: a fresh instance
receives its first statement (the one its `handles` matched), then
further statements only while it `accepts_more`. -/
def freshRun (env : Env) (fuel : Nat) (k : CompKind) (ctx : Ctx)
    (s0 : Statement) (ss : List Statement) : Except RunError LexerNode :=
  match nodeInput env fuel (newLexer env (.compC k) ctx) s0 with
  | .ok (node, _) => guardedSteps env fuel node ss
  | .error e => .error (.inputErr e)

/-- A concrete context whose section predicates never match, for witness
computations. -/
def ctx0 : Ctx :=
  { setting_section := fun _ => false
    variable_section := fun _ => false
    test_case_section := fun _ => false
    task_section := fun _ => false
    keyword_section := fun _ => false
    comment_section := fun _ => false }

/-- A concrete leaf-lexer environment for witness computations: the
control-flow header lexers match on their marker word in the first cell,
the keyword-call and implicit-comment lexers are catch-alls, leaf lexers
never accept a second statement (the typical single-line contract). -/
def env0 : Env :=
  { leafHandles := fun k s _ =>
      match k with
      | .forHeader => firstValue s == "FOR"
      | .whileHeader => firstValue s == "WHILE"
      | .tryHeader => firstValue s == "TRY"
      | .ifHeader => firstValue s == "IF"
      | .endLx => firstValue s == "END"
      | .implicitComment => true
      | .keywordCall => true
      | _ => false
    leafAcceptsMore := fun _ _ => false
    baseHandles := fun _ _ => true
    testCaseContext := fun c => c
    keywordContext := fun c => c }

/-- `env0` extended so the inline-conditional header shape also matches a
statement led by `IF`, for inline-conditional witnesses. -/
def envInline : Env :=
  { env0 with
      leafHandles := fun k s c =>
        match k with
        | .inlineIfHeader => firstValue s == "IF"
        | _ => env0.leafHandles k s c }

/-! ## Helper lemmas -/

/-- `find?` returns the first element satisfying the predicate: the result
satisfies it and everything before it in the list does not. -/
theorem find?_first {α : Type} (p : α → Bool) :
    ∀ (l : List α) (a : α), l.find? p = some a →
      p a = true ∧ ∃ l1 l2, l = l1 ++ a :: l2 ∧ ∀ x ∈ l1, p x = false := by
  intro l
  induction l with
  | nil => intro a h; simp [List.find?] at h
  | cons b bs ih =>
    intro a h
    by_cases hb : p b = true
    · rw [List.find?_cons_of_pos _ hb] at h
      cases h
      exact ⟨hb, [], bs, rfl, by simp⟩
    · have hb' : p b = false := by simpa using hb
      rw [List.find?_cons_of_neg _ (by simp [hb'])] at h
      obtain ⟨hp, l1, l2, hsplit, hpre⟩ := ih a h
      exact ⟨hp, b :: l1, l2, by simp [hsplit], by
        intro x hx
        rcases List.mem_cons.mp hx with hx | hx
        · subst hx; exact hb'
        · exact hpre x hx⟩

/-- A successful `input` needs at least one unit of fuel. -/
theorem nodeInput_ok_fuel_pos {env : Env} {fuel : Nat} {node : LexerNode}
    {s : Statement} {out : LexerNode × InputRet}
    (h : nodeInput env fuel node s = .ok out) : ∃ f, fuel = f + 1 := by
  cases fuel with
  | zero => simp [nodeInput] at h
  | succ f => exact ⟨f, rfl⟩

/-! ## C8 -/

/-- C8: `InlineIfLexer.handles` returns false for every statement of at
most two tokens, whatever their texts, and returns true exactly when the
statement has more than two tokens and the (out-of-scope) inline-if
header shape check `InlineIfHeaderLexer.handles` matches. -/
theorem inlineIf_handles_min_tokens (env : Env) (s : Statement) (ctx : Ctx) :
    (s.length ≤ 2 → compHandles env .inlineIf s ctx = false)
    ∧ (compHandles env .inlineIf s ctx = true ↔
        2 < s.length ∧ env.leafHandles .inlineIfHeader s ctx = true) := by
  constructor
  · intro h
    simp [compHandles, Nat.not_lt.mpr h]
  · simp [compHandles, Bool.and_eq_true, decide_eq_true_iff]

/-- Witness for C8: a two-token statement that would match the inline-if
header shape under `env0` is still rejected. -/
theorem inlineIf_handles_min_tokens_witness :
    compHandles env0 .inlineIf [tok "IF", tok "cond"] ctx0 = false :=
  (inlineIf_handles_min_tokens env0 [tok "IF", tok "cond"] ctx0).1 (by decide)

/-! ## C9 -/

/-- C9: behaviour of the inline-conditional splitter at control tokens,
scanning while not awaiting a condition. On a token whose text is exactly
`ELSE`: a boundary is requested before it, a boundary after it exactly
when it is not the statement's last token, the accumulated sub-statement
is emitted and then the singleton `ELSE` sub-statement. On a token whose
whitespace-normalised text is `ELSE IF`: a boundary is requested before
it, the accumulated sub-statement is emitted, and a new sub-statement
begins with that token, with the scan now awaiting a condition token; the
third conjunct shows the awaited condition token is consumed into that
sub-statement (with a trailing boundary unless it ends the statement),
which is then emitted. -/
theorem inline_split_else_and_elseif (current rest : List Token) (t : Token) :
    (t.value = "ELSE" →
      splitGo false current (t :: rest) =
        current
          :: [if rest.isEmpty then { t with addEosBefore := true }
              else { t with addEosBefore := true, addEosAfter := true }]
          :: splitGo false [] rest)
    ∧ (normalizeWhitespace t.value = "ELSE IF" →
      splitGo false current (t :: rest) =
        current :: splitGo true [{ t with addEosBefore := true }] rest)
    ∧ (∀ (c : Token) (rest' : List Token),
      splitGo true current (c :: rest') =
        (current ++ [if rest'.isEmpty then c else { c with addEosAfter := true }])
          :: splitGo false [] rest') := by
  refine ⟨?_, ?_, ?_⟩
  · intro h
    have h1 : (t.value == "IF") = false := by rw [h]; decide
    have h2 : (normalizeWhitespace t.value == "ELSE IF") = false := by rw [h]; decide
    have h3 : (t.value == "ELSE") = true := by rw [h]; decide
    simp only [splitGo, h1, h2, h3, if_false, if_true, Bool.false_eq_true, ite_false, ite_true]
  · intro h
    have h1 : (t.value == "IF") = false := by
      by_cases hv : t.value = "IF"
      · rw [hv] at h; exact absurd h (by decide)
      · simpa using hv
    have h2 : (normalizeWhitespace t.value == "ELSE IF") = true := by
      simpa using h
    simp only [splitGo, h1, h2, Bool.false_eq_true, ite_false, ite_true]
  · intro c rest'
    simp only [splitGo]

/-- Witness for C9: a last-position `ELSE` receives a boundary before but
not after; a non-last `ELSE` receives both. -/
theorem inline_split_else_and_elseif_witness :
    (splitGo false [tok "K"] [tok "ELSE"] =
      [tok "K"] :: [{ tok "ELSE" with addEosBefore := true }] :: splitGo false [] [])
    ∧ (splitGo false [tok "K"] [tok "ELSE", tok "K2"] =
      [tok "K"]
        :: [{ tok "ELSE" with addEosBefore := true, addEosAfter := true }]
        :: splitGo false [] [tok "K2"]) :=
  ⟨by
    have h := (inline_split_else_and_elseif [tok "K"] [] (tok "ELSE")).1 rfl
    simpa using h,
   by
    have h := (inline_split_else_and_elseif [tok "K"] [tok "K2"] (tok "ELSE")).1 rfl
    simpa using h⟩

/-! ## C3 -/

/-- C3: when no candidate class of a composite handles a statement,
`lexer_for` raises (it does not return normally), and so does `input`
whenever it reaches the classification step (no child yet, or the last
child no longer accepts); the raised diagnostic carries both the
composite's class name and the offending statement, and its rendered
message names them both. -/
theorem lexer_for_no_match (env : Env) (k : CompKind) (ctx : Ctx) (s : Statement)
    (hnone : ∀ c ∈ lexer_classes k, classHandles env c s ctx = false) :
    lexer_for env k ctx s = .error (.noLexer (compName k) s)
    ∧ (∀ fuel, blockInput env fuel k ctx [] s = .error (.noLexer (compName k) s))
    ∧ (∀ (fuel : Nat) (children : List LexerNode) (last : LexerNode),
        children.getLast? = some last →
        nodeAcceptsMore env last s = false →
        blockInput env fuel k ctx children s = .error (.noLexer (compName k) s))
    ∧ errorMessage (.noLexer (compName k) s)
        = compName k ++ " does not have lexer for statement " ++ reprStatement s ++ "." := by
  have hfind : (lexer_classes k).find? (fun c => classHandles env c s ctx) = none := by
    apply List.find?_eq_none.mpr
    intro c hc
    simp [hnone c hc]
  have hlf : lexer_for env k ctx s = .error (.noLexer (compName k) s) := by
    simp [lexer_for, hfind]
  refine ⟨hlf, ?_, ?_, rfl⟩
  · intro fuel
    simp [blockInput, blockInputF, blockInputFresh, hlf]
  · intro fuel children last hlast hmore
    simp [blockInput, blockInputF, hlast, hmore, blockInputFresh, hlf]

/-- Witness for C3: under `env0` the setting section's two candidate
classes both reject a plain statement, so its dispatch raises the
diagnostic naming `SettingSectionLexer` and the statement. -/
theorem lexer_for_no_match_witness :
    lexer_for env0 .settingSection ctx0 [tok "oops"]
      = .error (.noLexer "SettingSectionLexer" [tok "oops"])
    ∧ blockInput env0 3 .settingSection ctx0 [] [tok "oops"]
      = .error (.noLexer "SettingSectionLexer" [tok "oops"]) := by
  have h := lexer_for_no_match env0 .settingSection ctx0 [tok "oops"] (by decide)
  exact ⟨h.1, h.2.1 3⟩

/-! ## C4 -/

/-- C4: at file level, a non-empty statement whose first token starts with
`*` but which none of the six context section predicates recognises is
classified to `ErrorSectionLexer` by the candidate scan;
`ErrorSectionLexer.handles` is exactly "non-empty and first token text
starts with `*`", its body candidates lex as comments
(`ErrorSectionHeaderLexer` then `CommentLexer`), and `FileLexer`'s scan
can never raise because the final catch-all
`ImplicitCommentSectionLexer.handles` is true for every statement. -/
theorem file_unknown_header_error_section (env : Env) (ctx : Ctx)
    (t : Token) (rest : List Token)
    (hstar : strStartsWith t.value "*" = true)
    (h1 : ctx.setting_section (t :: rest) = false)
    (h2 : ctx.variable_section (t :: rest) = false)
    (h3 : ctx.test_case_section (t :: rest) = false)
    (h4 : ctx.task_section (t :: rest) = false)
    (h5 : ctx.keyword_section (t :: rest) = false)
    (h6 : ctx.comment_section (t :: rest) = false) :
    lexer_for env .fileL ctx (t :: rest) = .ok (.compC .errorSection)
    ∧ (∀ s : Statement,
        compHandles env .errorSection s ctx
          = (!s.isEmpty && strStartsWith (firstValue s) "*"))
    ∧ lexer_classes .errorSection = [.leafC .errorSectionHeader, .leafC .comment]
    ∧ (∀ (ctx' : Ctx) (s : Statement),
        compHandles env .implicitCommentSection s ctx' = true)
    ∧ (∀ (ctx' : Ctx) (s : Statement), ∃ c, lexer_for env .fileL ctx' s = .ok c) := by
  refine ⟨?_, fun s => rfl, rfl, fun ctx' s => rfl, ?_⟩
  · simp [lexer_for, lexer_classes, List.find?, classHandles, compHandles,
      h1, h2, h3, h4, h5, h6, firstValue, hstar]
  · intro ctx' s
    have hmem : ∃ c ∈ lexer_classes .fileL,
        classHandles env c s ctx' = true :=
      ⟨.compC .implicitCommentSection, by simp [lexer_classes], rfl⟩
    have hsome : ((lexer_classes .fileL).find?
        (fun c => classHandles env c s ctx')).isSome := by
      rw [List.find?_isSome]
      obtain ⟨c, hc, hh⟩ := hmem
      exact ⟨c, hc, hh⟩
    obtain ⟨c, hc⟩ := Option.isSome_iff_exists.mp hsome
    exact ⟨c, by simp [lexer_for, hc]⟩

/-- Witness for C4: the spec's `*** Bogus ***` header is routed to the
error section under the all-false context. -/
theorem file_unknown_header_error_section_witness :
    lexer_for env0 .fileL ctx0 [tok "*** Bogus ***"] = .ok (.compC .errorSection)
    ∧ ∃ c, lexer_for env0 .fileL ctx0 [tok "Bogus body"] = .ok c := by
  have h := file_unknown_header_error_section env0 ctx0 (tok "*** Bogus ***") []
    (by decide) rfl rfl rfl rfl rfl rfl
  exact ⟨h.1, h.2.2.2.2 ctx0 [tok "Bogus body"]⟩

/-! ## C1 -/

/-- C1: the generic composite dispatch. On success, either the most
recently appended child existed, still accepted the statement, and the
statement was delegated to it (all other children untouched, nothing
appended), or no open child accepted and the scan of the fixed ordered
candidate list instantiated the first class whose `handles` returned true,
appended the fresh instance as the new last child and delegated the
statement to it. In both cases at most one child is appended and every
child other than the last is preserved unchanged. -/
theorem blockLexer_input_dispatch (env : Env) (fuel : Nat) (k : CompKind)
    (ctx : Ctx) (children children' : List LexerNode) (cls : LexerClass)
    (s : Statement)
    (h : blockInput env fuel k ctx children s = .ok (children', cls)) :
    ((∃ last last' r, children.getLast? = some last
        ∧ nodeAcceptsMore env last s = true
        ∧ nodeInput env fuel last s = .ok (last', r)
        ∧ children' = children.dropLast ++ [last']
        ∧ cls = classOf last)
      ∨ ((∀ last, children.getLast? = some last →
            nodeAcceptsMore env last s = false)
        ∧ lexer_for env k ctx s = .ok cls
        ∧ classHandles env cls s ctx = true
        ∧ (∃ l1 l2, lexer_classes k = l1 ++ cls :: l2
            ∧ ∀ c ∈ l1, classHandles env c s ctx = false)
        ∧ ∃ fresh r, nodeInput env fuel (newLexer env cls ctx) s = .ok (fresh, r)
            ∧ children' = children ++ [fresh]))
    ∧ children'.length ≤ children.length + 1
    ∧ children'.take (children.length - 1) = children.take (children.length - 1) := by
  have fresh_case :
      blockInputFresh env (fun n s' => nodeInput env fuel n s') k ctx children s
          = .ok (children', cls) →
      (lexer_for env k ctx s = .ok cls
        ∧ classHandles env cls s ctx = true
        ∧ (∃ l1 l2, lexer_classes k = l1 ++ cls :: l2
            ∧ ∀ c ∈ l1, classHandles env c s ctx = false)
        ∧ ∃ fresh r, nodeInput env fuel (newLexer env cls ctx) s = .ok (fresh, r)
            ∧ children' = children ++ [fresh]) := by
    intro hf
    unfold blockInputFresh at hf
    beta_reduce at hf
    split at hf
    · rename_i c hlf
      split at hf
      · rename_i fr r hrec
        simp only [Except.ok.injEq, Prod.mk.injEq] at hf
        obtain ⟨hch, hc⟩ := hf
        subst hc
        have hfind : (lexer_classes k).find?
            (fun c' => classHandles env c' s ctx) = some c := by
          unfold lexer_for at hlf
          cases hfind : (lexer_classes k).find? (fun c' => classHandles env c' s ctx) with
          | none => rw [hfind] at hlf; cases hlf
          | some c' => rw [hfind] at hlf; cases hlf; rfl
        obtain ⟨hp, l1, l2, hsplit, hpre⟩ := find?_first _ _ _ hfind
        exact ⟨hlf, hp, ⟨l1, l2, hsplit, hpre⟩, fr, r, hrec, hch.symm⟩
      · rename_i e hrec
        cases hf
    · rename_i e hlf
      cases hf
  have take_pres : ∀ fr : LexerNode,
      (children ++ [fr]).take (children.length - 1)
        = children.take (children.length - 1) := by
    intro fr
    exact List.take_append_of_le_length (Nat.sub_le _ _)
  unfold blockInput blockInputF at h
  beta_reduce at h
  split at h
  · rename_i last hlast
    split at h
    · rename_i hacc
      split at h
      · rename_i last' r hrec
        simp only [Except.ok.injEq, Prod.mk.injEq] at h
        obtain ⟨hch, hcls⟩ := h
        subst hch
        subst hcls
        refine ⟨Or.inl ⟨last, last', r, hlast, hacc, hrec, rfl, rfl⟩, ?_, ?_⟩
        · simp only [List.length_append, List.length_dropLast, List.length_cons,
            List.length_nil]
          omega
        · rw [List.take_append_of_le_length (by rw [List.length_dropLast]),
            List.dropLast_eq_take, List.take_take]
          simp
      · rename_i e hrec
        cases h
    · rename_i hacc
      have hacc' : nodeAcceptsMore env last s = false := by
        simpa using hacc
      obtain ⟨hlf, hp, hscan, fr, r, hrec, hch⟩ := fresh_case h
      subst hch
      refine ⟨Or.inr ⟨?_, hlf, hp, hscan, fr, r, hrec, rfl⟩, by simp, take_pres fr⟩
      intro last2 hl
      rw [hlast] at hl
      injection hl with hl2
      subst hl2
      exact hacc'
  · rename_i hlast
    obtain ⟨hlf, hp, hscan, fr, r, hrec, hch⟩ := fresh_case h
    subst hch
    refine ⟨Or.inr ⟨?_, hlf, hp, hscan, fr, r, hrec, rfl⟩, by simp, take_pres fr⟩
    intro last hl
    rw [hlast] at hl
    cases hl

/-- Witness for C1: dispatching a plain statement at an empty file-level
composite appends exactly one fresh child. -/
theorem blockLexer_input_dispatch_witness :
    ((∃ last last' r, ([] : List LexerNode).getLast? = some last
        ∧ nodeAcceptsMore env0 last [tok "hello"] = true
        ∧ nodeInput env0 5 last [tok "hello"] = .ok (last', r)
        ∧ [LexerNode.comp .implicitCommentSection ctx0
            [.leaf .implicitComment [[tok "hello"]]] 0 false [] []]
            = List.dropLast [] ++ [last']
        ∧ LexerClass.compC .implicitCommentSection = classOf last)
      ∨ ((∀ last, ([] : List LexerNode).getLast? = some last →
            nodeAcceptsMore env0 last [tok "hello"] = false)
        ∧ lexer_for env0 .fileL ctx0 [tok "hello"]
            = .ok (.compC .implicitCommentSection)
        ∧ classHandles env0 (.compC .implicitCommentSection) [tok "hello"] ctx0 = true
        ∧ (∃ l1 l2, lexer_classes .fileL
              = l1 ++ LexerClass.compC .implicitCommentSection :: l2
            ∧ ∀ c ∈ l1, classHandles env0 c [tok "hello"] ctx0 = false)
        ∧ ∃ fresh r,
            nodeInput env0 5
              (newLexer env0 (.compC .implicitCommentSection) ctx0) [tok "hello"]
              = .ok (fresh, r)
            ∧ [LexerNode.comp .implicitCommentSection ctx0
                [.leaf .implicitComment [[tok "hello"]]] 0 false [] []]
              = [] ++ [fresh]))
    ∧ [LexerNode.comp .implicitCommentSection ctx0
        [.leaf .implicitComment [[tok "hello"]]] 0 false [] []].length
        ≤ ([] : List LexerNode).length + 1
    ∧ [LexerNode.comp .implicitCommentSection ctx0
        [.leaf .implicitComment [[tok "hello"]]] 0 false [] []].take
          (([] : List LexerNode).length - 1)
        = ([] : List LexerNode).take (([] : List LexerNode).length - 1) :=
  blockLexer_input_dispatch env0 5 .fileL ctx0 []
    [LexerNode.comp .implicitCommentSection ctx0
      [.leaf .implicitComment [[tok "hello"]]] 0 false [] []]
    (.compC .implicitCommentSection) [tok "hello"] (by rfl)

/-! ## C7 -/

/-- C7: name extraction of `TestOrKeywordLexer.input`. On the first
statement (name not yet seen) of a test-case or keyword lexer, the first
token is removed from the statement, assigned the block's name type
(test-case name or keyword name respectively), and a synthetic
end-of-statement boundary is requested right after it exactly when at
least one further token follows; the remaining tokens, if any, are then
dispatched through the ordinary composite dispatch as a body statement
(and with no remaining tokens nothing is dispatched). -/
theorem testOrKeyword_name_extraction (env : Env) (fuel : Nat) (k : CompKind)
    (ctx : Ctx) (children : List LexerNode) (lvl : Int)
    (names ign : List Token) (t : Token) (rest : List Token)
    (hk : k = .testCase ∨ k = .keywordL) :
    nodeInput env (fuel + 1) (.comp k ctx children lvl false names ign) (t :: rest) =
      (let t' : Token :=
        { t with
            type := some (nameTypeOf k)
            addEosAfter := if rest.isEmpty then t.addEosAfter else true };
       if rest.isEmpty then
         .ok (.comp k ctx children lvl true (names ++ [t']) ign, .noneRet)
       else
         match blockInput env fuel k ctx children rest with
         | .ok (children', _) =>
             .ok (.comp k ctx children' lvl true (names ++ [t']) ign, .noneRet)
         | .error e => .error e) := by
  rcases hk with h | h <;> subst h <;> rfl

/-- Witness for C7: the spec's name-extraction vector
`["MyTest", "", "Log", "hi"]` on a fresh test-case lexer. -/
theorem testOrKeyword_name_extraction_witness :
    nodeInput env0 5 (.comp .testCase ctx0 [] 0 false [] [])
        [tok "MyTest", tok "", tok "Log", tok "hi"] =
      (let t' : Token :=
        { tok "MyTest" with
            type := some (nameTypeOf .testCase)
            addEosAfter := if ([tok "", tok "Log", tok "hi"] : List Token).isEmpty
              then (tok "MyTest").addEosAfter else true };
       if ([tok "", tok "Log", tok "hi"] : List Token).isEmpty then
         .ok (.comp .testCase ctx0 [] 0 true ([] ++ [t']) [], .noneRet)
       else
         match blockInput env0 4 .testCase ctx0 [] [tok "", tok "Log", tok "hi"] with
         | .ok (children', _) =>
             .ok (.comp .testCase ctx0 children' 0 true ([] ++ [t']) [], .noneRet)
         | .error e => .error e) :=
  testOrKeyword_name_extraction env0 4 .testCase ctx0 [] 0 [] []
    (tok "MyTest") [tok "", tok "Log", tok "hi"] (Or.inl rfl)

/-! ## C10 -/

/-- C10: dispatching an inline-conditional statement inside a nested-block
lexer leaves the block depth unchanged, because the inline-conditional
class is neither a block-opening header class nor the end class (first
conjunct); an inline-conditional lexer's `accepts_more` is false for
every statement (second conjunct), and its `input` returns the
inline-conditional lexer itself, never one of its children (third
conjunct), so it owns exactly the one physical statement it was created
for. -/
theorem inlineIf_no_depth_change (env : Env) (fuel : Nat) (k : CompKind)
    (ctx : Ctx) (children ch' : List LexerNode) (lvl : Int) (ns : Bool)
    (nm ig : List Token) (s : Statement) (node' : LexerNode) (r : InputRet)
    (hk : k = .forL ∨ k = .whileL ∨ k = .tryL ∨ k = .ifL)
    (h : nodeInput env (fuel + 1) (.comp k ctx children lvl ns nm ig) s
        = .ok (node', r))
    (hcls : blockInput env fuel k ctx children s = .ok (ch', .compC .inlineIf)) :
    blockLevelOf node' = lvl
    ∧ (∀ (env' : Env) (ctx' : Ctx) (ch : List LexerNode) (lvl' : Int)
        (a : Bool) (b c : List Token) (s' : Statement),
        nodeAcceptsMore env' (.comp .inlineIf ctx' ch lvl' a b c) s' = false)
    ∧ (∀ (f : Nat) (ctx' : Ctx) (ch : List LexerNode) (lvl' : Int) (a : Bool)
        (b c : List Token) (s' : Statement) (n' : LexerNode) (r' : InputRet),
        nodeInput env (f + 1) (.comp .inlineIf ctx' ch lvl' a b c) s' = .ok (n', r') →
        r' = .selfRet ∧ classOf n' = .compC .inlineIf) := by
  refine ⟨?_, fun _ _ _ _ _ _ _ _ => rfl, ?_⟩
  · have hstep : nodeInput env (fuel + 1) (.comp k ctx children lvl ns nm ig) s
        = match blockInput env fuel k ctx children s with
          | .ok (children', cls) =>
              .ok (.comp k ctx children'
                (lvl + (if isOpenerClass cls then 1 else 0)
                     - (if isEndClass cls then 1 else 0)) ns nm ig, .noneRet)
          | .error e => .error e := by
      rcases hk with h' | h' | h' | h' <;> subst h' <;> rfl
    rw [hstep, hcls] at h
    simp only [Except.ok.injEq, Prod.mk.injEq] at h
    obtain ⟨hn, _⟩ := h
    subst hn
    simp [blockLevelOf, isOpenerClass, isEndClass]
  · intro f ctx' ch lvl' a b c s' n' r' h'
    have hstep : nodeInput env (f + 1) (.comp .inlineIf ctx' ch lvl' a b c) s'
        = match inlineGo
              (fun cs p => blockInputF env (fun n s2 => nodeInput env f n s2) .inlineIf ctx' cs p)
              ch (split s') with
          | .ok ch2 => .ok (.comp .inlineIf ctx' ch2 lvl' a b c, .selfRet)
          | .error e => .error e := rfl
    rw [hstep] at h'
    cases hgo : inlineGo
        (fun cs p => blockInputF env (fun n s2 => nodeInput env f n s2) .inlineIf ctx' cs p)
        ch (split s') with
    | error e => rw [hgo] at h'; cases h'
    | ok ch2 =>
      rw [hgo] at h'
      simp only [Except.ok.injEq, Prod.mk.injEq] at h'
      obtain ⟨hn, hr⟩ := h'
      subst hn
      exact ⟨hr.symm, rfl⟩

/-- Witness for C10: a three-token inline conditional dispatched inside an
open `FOR` block leaves the depth at its previous value 1. -/
theorem inlineIf_no_depth_change_witness :
    blockLevelOf
      (match nodeInput envInline 6
          (.comp .forL ctx0 [.leaf .forHeader [[tok "FOR"]]] 1 false [] [])
          [tok "IF", tok "True", tok "K"] with
        | .ok (n, _) => n
        | .error _ => .leaf .comment []) = 1 := by
  have hcls : blockInput envInline 5 .forL ctx0 [.leaf .forHeader [[tok "FOR"]]]
      [tok "IF", tok "True", tok "K"]
      = .ok ([.leaf .forHeader [[tok "FOR"]],
              .comp .inlineIf ctx0
                [.leaf .inlineIfHeader [[tok "IF", { tok "True" with addEosAfter := true }]],
                 .leaf .keywordCall [[tok "K"]]] 0 false [] []],
          .compC .inlineIf) := by rfl
  have h := inlineIf_no_depth_change envInline 5 .forL ctx0
    [.leaf .forHeader [[tok "FOR"]]]
    [.leaf .forHeader [[tok "FOR"]],
     .comp .inlineIf ctx0
       [.leaf .inlineIfHeader [[tok "IF", { tok "True" with addEosAfter := true }]],
        .leaf .keywordCall [[tok "K"]]] 0 false [] []]
    1 false [] [] [tok "IF", tok "True", tok "K"]
    (.comp .forL ctx0
      [.leaf .forHeader [[tok "FOR"]],
       .comp .inlineIf ctx0
         [.leaf .inlineIfHeader [[tok "IF", { tok "True" with addEosAfter := true }]],
          .leaf .keywordCall [[tok "K"]]] 0 false [] []]
      1 false [] []) .noneRet
    (Or.inl rfl) (by rfl) hcls
  exact h.1

/-! ## C5 and C6: lex-phase emission order -/

/-- A priority pass visits exactly the children retained by the filter, in
append order. -/
theorem lexTraceWhere_eq (p : LexerNode → Bool) (cs : List LexerNode) :
    lexTraceWhere p cs = ((cs.filter p).map lexTrace).flatten := by
  induction cs with
  | nil => rfl
  | cons c cs ih =>
    by_cases hc : p c = true
    · simp [lexTraceWhere, List.filter_cons, hc, ih]
    · have hc' : p c = false := by simpa using hc
      simp [lexTraceWhere, List.filter_cons, hc', ih]

/-- C5: priority lexing. `FileLexer.lex` emits the events of every child
that is a setting-section lexer (Python `isinstance`, which includes the
`KeywordSectionLexer` subclass), in append order, before the events of
every remaining child, in append order; `TestCaseLexer.lex` likewise
emits every `TestOrKeywordSettingLexer` child's events before all other
children's; consequently a body setting statement owned by a setting
child appearing after a call child in document order is still
type-assigned (its lex event emitted) before the call child's. -/
theorem priority_lexing (ctx : Ctx) (children : List LexerNode) (lvl : Int)
    (ns : Bool) (nm ig : List Token) :
    (lexTrace (.comp .fileL ctx children lvl ns nm ig)
      = ((children.filter isSettingSectionInst).map lexTrace).flatten
        ++ ((children.filter (fun c => !isSettingSectionInst c)).map lexTrace).flatten)
    ∧ (lexTrace (.comp .testCase ctx children lvl ns nm ig)
      = ((children.filter isTokSettingInst).map lexTrace).flatten
        ++ ((children.filter (fun c => !isTokSettingInst c)).map lexTrace).flatten)
    ∧ (∀ (pre mid post : List LexerNode) (c d : LexerNode),
        children = pre ++ c :: mid ++ d :: post →
        isTokSettingInst d = true → isTokSettingInst c = false →
        ∃ xs ys zs, lexTrace (.comp .testCase ctx children lvl ns nm ig)
          = xs ++ lexTrace d ++ ys ++ lexTrace c ++ zs) := by
  refine ⟨?_, ?_, ?_⟩
  · show lexTraceWhere isSettingSectionInst children
        ++ lexTraceWhere (fun c => !isSettingSectionInst c) children = _
    rw [lexTraceWhere_eq, lexTraceWhere_eq]
  · show lexTraceWhere isTokSettingInst children
        ++ lexTraceWhere (fun c => !isTokSettingInst c) children = _
    rw [lexTraceWhere_eq, lexTraceWhere_eq]
  · intro pre mid post c d hch hd hc
    subst hch
    refine ⟨((pre.filter isTokSettingInst).map lexTrace).flatten
        ++ ((mid.filter isTokSettingInst).map lexTrace).flatten,
      ((post.filter isTokSettingInst).map lexTrace).flatten
        ++ ((pre.filter (fun x => !isTokSettingInst x)).map lexTrace).flatten,
      ((mid.filter (fun x => !isTokSettingInst x)).map lexTrace).flatten
        ++ ((post.filter (fun x => !isTokSettingInst x)).map lexTrace).flatten, ?_⟩
    show lexTraceWhere isTokSettingInst _ ++ lexTraceWhere (fun x => !isTokSettingInst x) _ = _
    rw [lexTraceWhere_eq, lexTraceWhere_eq]
    simp [List.filter_append, List.filter_cons, hd, hc, List.map_append,
      List.flatten_append, List.append_assoc]

/-- Witness for C5: a test body whose setting child was appended after its
call child still emits the setting's event first. -/
theorem priority_lexing_witness :
    ∃ xs ys zs,
      lexTrace (.comp .testCase ctx0
        [.leaf .keywordCall [[tok "No Operation"]],
         .leaf .testOrKeywordSetting [[tok "[Timeout]", tok "1s"]]] 0 true [] [])
        = xs ++ lexTrace (.leaf .testOrKeywordSetting [[tok "[Timeout]", tok "1s"]])
          ++ ys ++ lexTrace (.leaf .keywordCall [[tok "No Operation"]]) ++ zs :=
  (priority_lexing ctx0
      [.leaf .keywordCall [[tok "No Operation"]],
       .leaf .testOrKeywordSetting [[tok "[Timeout]", tok "1s"]]] 0 true [] []).2.2
    [] [] [] (.leaf .keywordCall [[tok "No Operation"]])
    (.leaf .testOrKeywordSetting [[tok "[Timeout]", tok "1s"]]) rfl rfl rfl

/-- A keyword body whose setting child was appended after its call child,
the explicit input refuting C6. -/
def kwCounterNode : LexerNode :=
  .comp .keywordL ctx0
    [.leaf .keywordCall [[tok "No Operation"]],
     .leaf .testOrKeywordSetting [[tok "[Timeout]", tok "1s"]]] 0 true [] []

/-- C6 counterexample: `KeywordLexer.lex` emits this keyword body's events
in plain document order (the call's event first), not in the
settings-first order the priority mechanism would produce, so the claim
that the keyword lexer resolves body settings first via the priority
mechanism is false at this input. -/
theorem keywordLexer_not_priority :
    lexTrace kwCounterNode
      = [(.keywordCall, [[tok "No Operation"]]),
         (.testOrKeywordSetting, [[tok "[Timeout]", tok "1s"]])]
    ∧ lexTrace kwCounterNode
      ≠ lexTraceWhere isTokSettingInst (childrenOf kwCounterNode)
          ++ lexTraceWhere (fun c => !isTokSettingInst c) (childrenOf kwCounterNode) := by
  exact ⟨rfl, by decide⟩

/-- C6 as amended: `KeywordLexer` does not override `lex`, so inside a
keyword body the children are lexed in plain append (document) order with
no priority pass; the settings-first priority mechanism belongs to
`TestCaseLexer.lex` only. -/
theorem keywordLexer_plain_lex_order (ctx : Ctx) (children : List LexerNode)
    (lvl : Int) (ns : Bool) (nm ig : List Token) :
    lexTrace (.comp .keywordL ctx children lvl ns nm ig)
      = (children.map lexTrace).flatten := by
  show lexTraceWhere (fun _ => true) children = _
  rw [lexTraceWhere_eq]
  congr 1
  simp

/-! ## C2: nested-block depth tracking -/

/-- `NestedBlockLexer.input` is the generic dispatch followed by the depth
update determined by the class of the direct child that accepted the
statement: up for a block-opening header lexer, down for an end lexer. -/
theorem nestedInput_step {env : Env} {fuel : Nat} {k : CompKind} {ctx : Ctx}
    {children : List LexerNode} {lvl : Int} {ns : Bool} {nm ig : List Token}
    {s : Statement} {node' : LexerNode} {r : InputRet}
    (hk : k = .forL ∨ k = .whileL ∨ k = .tryL ∨ k = .ifL)
    (h : nodeInput env (fuel + 1) (.comp k ctx children lvl ns nm ig) s
        = .ok (node', r)) :
    ∃ ch' cls, blockInput env fuel k ctx children s = .ok (ch', cls)
      ∧ node' = .comp k ctx ch'
          (lvl + (if isOpenerClass cls then 1 else 0)
               - (if isEndClass cls then 1 else 0)) ns nm ig
      ∧ r = .noneRet := by
  have hstep : nodeInput env (fuel + 1) (.comp k ctx children lvl ns nm ig) s
      = match blockInput env fuel k ctx children s with
        | .ok (ch', cls) =>
            .ok (.comp k ctx ch'
              (lvl + (if isOpenerClass cls then 1 else 0)
                   - (if isEndClass cls then 1 else 0)) ns nm ig, .noneRet)
        | .error e => .error e := by
    rcases hk with h' | h' | h' | h' <;> subst h' <;> rfl
  rw [hstep] at h
  cases hb : blockInput env fuel k ctx children s with
  | error e => rw [hb] at h; cases h
  | ok out =>
    rw [hb] at h
    obtain ⟨ch', cls⟩ := out
    simp only [Except.ok.injEq, Prod.mk.injEq] at h
    obtain ⟨hn, hr⟩ := h
    exact ⟨ch', cls, rfl, hn.symm, hr.symm⟩

/-- Dispatch at a composite with no children yet classifies through
`lexer_for`. -/
theorem blockInput_nil_lexer_for {env : Env} {fuel : Nat} {k : CompKind}
    {ctx : Ctx} {s : Statement} {ch' : List LexerNode} {cls : LexerClass}
    (h : blockInput env fuel k ctx [] s = .ok (ch', cls)) :
    lexer_for env k ctx s = .ok cls := by
  unfold blockInput blockInputF blockInputFresh at h
  beta_reduce at h
  split at h
  · rename_i last hlast
    cases hlast
  · split at h
    · rename_i c hlf
      split at h
      · rename_i fr r hrec
        simp only [Except.ok.injEq, Prod.mk.injEq] at h
        rw [hlf, h.2]
      · rename_i e hrec
        cases h
    · rename_i e hlf
      cases h

/-- On the first statement of a nested-block lexer (created because its
own header's `handles` matched), the candidate scan can only pick the
block's own header class or, for `IfLexer`, the inline-conditional class
that precedes it — never the end class — so the depth after the first
statement is 0 or 1. -/
theorem nested_first_level {env : Env} {fuel : Nat} {k : CompKind} {ctx : Ctx}
    {s0 : Statement} {node : LexerNode} {r : InputRet}
    (hk : k = .forL ∨ k = .whileL ∨ k = .tryL ∨ k = .ifL)
    (hh : compHandles env k s0 ctx = true)
    (h : nodeInput env fuel (.comp k ctx [] 0 false [] []) s0 = .ok (node, r)) :
    ∃ ch lvl, node = .comp k ctx ch lvl false [] [] ∧ 0 ≤ lvl := by
  obtain ⟨f, hf⟩ := nodeInput_ok_fuel_pos h
  subst hf
  obtain ⟨ch', cls, hb, hn, hr⟩ := nestedInput_step hk h
  subst hn
  refine ⟨ch', _, rfl, ?_⟩
  have hlf : lexer_for env k ctx s0 = .ok cls := blockInput_nil_lexer_for hb
  have hnotend : isEndClass cls = false := by
    rcases hk with h' | h' | h' | h' <;> subst h'
    · have hph : classHandles env (.leafC .forHeader) s0 ctx = true := by
        simpa [classHandles] using hh
      unfold lexer_for at hlf
      simp only [lexer_classes, List.find?, hph, if_true, Except.ok.injEq] at hlf
      subst hlf
      rfl
    · have hph : classHandles env (.leafC .whileHeader) s0 ctx = true := by
        simpa [classHandles] using hh
      unfold lexer_for at hlf
      simp only [lexer_classes, List.find?, hph, if_true, Except.ok.injEq] at hlf
      subst hlf
      rfl
    · have hph : classHandles env (.leafC .tryHeader) s0 ctx = true := by
        simpa [classHandles] using hh
      unfold lexer_for at hlf
      simp only [lexer_classes, List.find?, hph, if_true, Except.ok.injEq] at hlf
      subst hlf
      rfl
    · unfold lexer_for at hlf
      by_cases hinl : classHandles env (.compC .inlineIf) s0 ctx = true
      · simp only [lexer_classes, List.find?, hinl, if_true, Except.ok.injEq] at hlf
        subst hlf
        rfl
      · have hinl' : classHandles env (.compC .inlineIf) s0 ctx = false := by
          simpa using hinl
        have hph : classHandles env (.leafC .ifHeader) s0 ctx = true := by
          simpa [classHandles] using hh
        simp only [lexer_classes, List.find?, hinl', hph, Bool.false_eq_true,
          if_false, if_true, Except.ok.injEq] at hlf
        subst hlf
        rfl
  by_cases ho : isOpenerClass cls = true
  · simp [ho, hnotend]
  · have ho' : isOpenerClass cls = false := by simpa using ho
    simp [ho', hnotend]

/-- Along a guarded run (statements delivered only while `accepts_more`
holds), a nested-block lexer keeps its class and context and its depth
stays non-negative. -/
theorem guardedSteps_nested {env : Env} {fuel : Nat} {k : CompKind} {ctx : Ctx}
    (hk : k = .forL ∨ k = .whileL ∨ k = .tryL ∨ k = .ifL) :
    ∀ (ss : List Statement) (node mid : LexerNode),
      guardedSteps env fuel node ss = .ok mid →
      (∃ ch lvl ns nm ig, node = .comp k ctx ch lvl ns nm ig ∧ 0 ≤ lvl) →
      ∃ ch lvl ns nm ig, mid = .comp k ctx ch lvl ns nm ig ∧ 0 ≤ lvl := by
  intro ss
  induction ss with
  | nil =>
    intro node mid h hinv
    simp only [guardedSteps, Except.ok.injEq] at h
    subst h
    exact hinv
  | cons s ss ih =>
    intro node mid h hinv
    obtain ⟨ch, lvl, ns, nm, ig, hnode, hlvl⟩ := hinv
    subst hnode
    simp only [guardedSteps] at h
    by_cases hacc : nodeAcceptsMore env (.comp k ctx ch lvl ns nm ig) s = true
    · rw [hacc] at h
      simp only [if_true] at h
      cases hni : nodeInput env fuel (.comp k ctx ch lvl ns nm ig) s with
      | error e => rw [hni] at h; cases h
      | ok out =>
        rw [hni] at h
        obtain ⟨node1, r⟩ := out
        have hpos : (0 : Int) < lvl := by
          rcases hk with h' | h' | h' | h' <;> subst h' <;>
            simpa [nodeAcceptsMore, compAcceptsMore] using hacc
        obtain ⟨f, hf⟩ := nodeInput_ok_fuel_pos hni
        subst hf
        obtain ⟨ch', cls, hb, hn1, hr⟩ := nestedInput_step hk hni
        subst hn1
        apply ih _ _ h
        refine ⟨ch', _, ns, nm, ig, rfl, ?_⟩
        by_cases ho : isOpenerClass cls = true <;>
          by_cases he : isEndClass cls = true <;>
            simp [ho, he] <;> omega
    · have hacc' : nodeAcceptsMore env (.comp k ctx ch lvl ns nm ig) s = false := by
        simpa using hacc
      rw [hacc'] at h
      simp at h

/-- C2: for a nested-block lexer fed through composite dispatch (its first
statement matched its `handles`, later statements arrive only while it
`accepts_more`): the depth counter starts at zero, is never negative
after any number of guarded steps, `accepts_more` answers exactly
"depth positive" (so once the depth is zero — in particular once it has
returned to zero after being positive — `accepts_more` is false for every
further statement), and every dispatched statement changes the depth by
plus one exactly when the accepting direct child is a block-opening
header lexer and minus one exactly when it is an end lexer. -/
theorem nested_block_depth_invariant (env : Env) (fuel : Nat) (k : CompKind)
    (ctx : Ctx) (s0 : Statement) (ss : List Statement) (mid : LexerNode)
    (hk : k = .forL ∨ k = .whileL ∨ k = .tryL ∨ k = .ifL)
    (hh : compHandles env k s0 ctx = true)
    (hrun : freshRun env fuel k ctx s0 ss = .ok mid) :
    blockLevelOf (newLexer env (.compC k) ctx) = 0
    ∧ 0 ≤ blockLevelOf mid
    ∧ (∀ s, nodeAcceptsMore env mid s = decide (0 < blockLevelOf mid))
    ∧ (blockLevelOf mid = 0 → ∀ s, nodeAcceptsMore env mid s = false)
    ∧ (∀ (ctx' : Ctx) (ch : List LexerNode) (lvl : Int) (ns : Bool)
        (nm ig : List Token),
        mid = .comp k ctx' ch lvl ns nm ig →
        ∀ (f : Nat) (s : Statement) (node' : LexerNode) (r : InputRet)
          (ch' : List LexerNode) (cls : LexerClass),
          nodeInput env (f + 1) mid s = .ok (node', r) →
          blockInput env f k ctx' ch s = .ok (ch', cls) →
          blockLevelOf node' = lvl + (if isOpenerClass cls then 1 else 0)
            - (if isEndClass cls then 1 else 0)) := by
  have hnew : newLexer env (.compC k) ctx = .comp k ctx [] 0 false [] [] := by
    rcases hk with h' | h' | h' | h' <;> subst h' <;> rfl
  have hmid : ∃ ch lvl ns nm ig, mid = .comp k ctx ch lvl ns nm ig ∧ 0 ≤ lvl := by
    unfold freshRun at hrun
    rw [hnew] at hrun
    cases h0 : nodeInput env fuel (.comp k ctx [] 0 false [] []) s0 with
    | error e => rw [h0] at hrun; cases hrun
    | ok out =>
      rw [h0] at hrun
      obtain ⟨node0, r0⟩ := out
      obtain ⟨ch0, lvl0, hnode0, hlvl0⟩ := nested_first_level hk hh h0
      subst hnode0
      exact guardedSteps_nested hk ss _ mid hrun
        ⟨ch0, lvl0, false, [], [], rfl, hlvl0⟩
  obtain ⟨ch, lvl, ns, nm, ig, hmideq, hlvl⟩ := hmid
  have haccepts : ∀ s, nodeAcceptsMore env mid s = decide (0 < blockLevelOf mid) := by
    intro s
    rw [hmideq]
    rcases hk with h' | h' | h' | h' <;> subst h' <;> rfl
  refine ⟨by rw [hnew]; rfl, by rw [hmideq]; exact hlvl, haccepts, ?_, ?_⟩
  · intro hzero s
    rw [haccepts s, hzero]
    rfl
  · intro ctx2 ch2 lvl2 ns2 nm2 ig2 hdec f s node' r ch' cls hni hb
    subst hdec
    obtain ⟨ch3, cls3, hb3, hn3, hr3⟩ := nestedInput_step hk hni
    rw [hb3] at hb
    simp only [Except.ok.injEq, Prod.mk.injEq] at hb
    obtain ⟨hc3, hcls3⟩ := hb
    subst hcls3
    rw [hn3]
    rfl

/-- Statements for the C2 witness: a `FOR` header, one body call, a nested
`IF` header, its body call, its `END`, and the loop's `END`. -/
def c2s0 : Statement := [tok "FOR", tok "${i}", tok "IN", tok "1"]

/-- Guarded follow-up statements of the C2 witness run. -/
def c2ss : List Statement :=
  [[tok "Log", tok "x"], [tok "IF", tok "True"], [tok "Log", tok "y"],
   [tok "END"], [tok "END"]]

/-- Final state of the C2 witness run (the run succeeds, so the fallback
branch is never taken). -/
def c2node : LexerNode :=
  match freshRun env0 8 .forL ctx0 c2s0 c2ss with
  | .ok n => n
  | .error _ => .leaf .comment []

/-- Witness for C2: after the balanced `FOR ... IF ... END ... END` run the
depth is back to zero and the lexer no longer accepts statements. -/
theorem nested_block_depth_invariant_witness :
    blockLevelOf c2node = 0
    ∧ nodeAcceptsMore env0 c2node [tok "Log", tok "z"] = false := by
  have h := nested_block_depth_invariant env0 8 .forL ctx0 c2s0 c2ss c2node
    (Or.inl rfl) (by rfl) (by rfl)
  have hz : blockLevelOf c2node = 0 := by rfl
  exact ⟨hz, h.2.2.2.1 hz [tok "Log", tok "z"]⟩

end BlockLexers
